import Mathlib

/-!
Verification of the MyFinanceHub ledger/authentication core.

The definitions below are a shallow embedding of the Python source:

* `Home.*` embeds the sqlite-backed application in `Home.py`
  (tables `users`, `expenses`, `budgets` and the functions
  `register_user`, `authenticate`, `add_expense`, `get_expenses_df`,
  `set_budget`, `password_valid`, the budget-progress computation in
  `page_budgets`, and the top-category computation in `page_welcome`).
* `Auth.*` embeds the ORM-backed variant in `utils/authentication.py`
  (`password_valid`, `authenticate`, `delete_expense_by_id`).

SQL tables are embedded as Lean lists of row structures, in insertion
order (sqlite rowid order).  `REAL` amounts are embedded as `ℚ`,
`TEXT` as `String`, `INTEGER` as `Int`/`Nat`.  `ORDER BY <text column>`
uses sqlite's BINARY collation, embedded as byte-wise lexicographic
comparison `lexLe` on the character list of the text.
-/

/-- Byte-wise lexicographic "less or equal" on character lists: the order
sqlite's BINARY collation gives `ORDER BY date ASC` on a `TEXT` column
(for the ASCII texts the application stores, byte order is code-point
order). -/
def lexLe : List Char → List Char → Bool
  | [], _ => true
  | _ :: _, [] => false
  | c :: cs, d :: ds =>
    if c.toNat < d.toNat then true
    else if d.toNat < c.toNat then false
    else lexLe cs ds

/-- Lexicographic order on strings, the order of `ORDER BY` on `TEXT`. -/
def strLe (a b : String) : Prop := lexLe a.data b.data = true

instance : DecidableRel strLe := fun _ _ => inferInstanceAs (Decidable (_ = true))

/-- Numeric value of an ASCII digit character. -/
def digitVal (c : Char) : Nat := c.toNat - 48

/-- ASCII digit test (code points 48–57), the digits accepted in the
`YYYY-MM-DD` texts the application writes. -/
def isDigitChar (c : Char) : Bool := decide (48 ≤ c.toNat) && decide (c.toNat ≤ 57)

/-- Days in a calendar month, Gregorian leap rule. -/
def daysInMonth (y m : Nat) : Nat :=
  if m = 2 then (if (y % 4 = 0 ∧ y % 100 ≠ 0) ∨ y % 400 = 0 then 29 else 28)
  else if m = 4 ∨ m = 6 ∨ m = 9 ∨ m = 11 then 30 else 31

/-- Embeds `pd.to_datetime(_, errors="coerce")` on the `date` texts of the
ledger: the application always writes dates as `date.strftime("%Y-%m-%d")`,
so a stored date parses exactly when it is a ten-character `YYYY-MM-DD`
text denoting a real calendar date; anything else coerces to `NaT`
(`none` here) and is subsequently dropped by `dropna`. -/
def parseDate (s : String) : Option (Nat × Nat × Nat) :=
  match s.data with
  | [y1, y2, y3, y4, '-', m1, m2, '-', d1, d2] =>
    if isDigitChar y1 && isDigitChar y2 && isDigitChar y3 && isDigitChar y4 &&
        isDigitChar m1 && isDigitChar m2 && isDigitChar d1 && isDigitChar d2 then
      let y := digitVal y1 * 1000 + digitVal y2 * 100 + digitVal y3 * 10 + digitVal y4
      let m := digitVal m1 * 10 + digitVal m2
      let d := digitVal d1 * 10 + digitVal d2
      if 1 ≤ m ∧ m ≤ 12 ∧ 1 ≤ d ∧ d ≤ daysInMonth y m then some (y, m, d) else none
    else none
  | _ => none

/-- Decimal value of a block of digit characters (most significant
first); used to relate byte-wise text order to date order. -/
def natOfDigits : List Char → Nat
  | [] => 0
  | c :: cs => digitVal c * 10 ^ cs.length + natOfDigits cs

/-- Chronological order on parsed `(year, month, day)` dates. -/
def calDateLe (p q : Nat × Nat × Nat) : Prop :=
  p.1 < q.1 ∨ (p.1 = q.1 ∧ (p.2.1 < q.2.1 ∨ (p.2.1 = q.2.1 ∧ p.2.2 ≤ q.2.2)))

/-- Python's `re` semantics for a trailing `$`: `$` also matches just
before one final newline, so a regex of the shape `^....$` sees the
input with one trailing `'\n'` stripped. -/
def stripTrailingNewline (cs : List Char) : List Char :=
  if cs.getLast? = some '\n' then cs.dropLast else cs

namespace Home

/-- A row of the `users` table created in `Home.py`
(`username TEXT PRIMARY KEY, password TEXT NOT NULL, email TEXT`). -/
structure UserRow where
  username : String
  password : String
  email : Option String
deriving DecidableEq

/-- A row of the `expenses` table created in `Home.py`
(`id INTEGER PRIMARY KEY AUTOINCREMENT, username TEXT, category TEXT,
amount REAL, date TEXT, description TEXT`). -/
structure ExpenseRow where
  id : Nat
  username : String
  category : String
  amount : ℚ
  date : String
  description : String
deriving DecidableEq

/-- A row of the `budgets` table created in `Home.py`
(`id INTEGER PRIMARY KEY AUTOINCREMENT, username TEXT, category TEXT,
month INTEGER, year INTEGER, amount REAL`). -/
structure BudgetRow where
  id : Nat
  username : String
  category : String
  month : Int
  year : Int
  amount : ℚ
deriving DecidableEq

/-- `Home.py` `password_valid`: `re.match` of
`^(?=.*[a-z])(?=.*[A-Z])(?=.*\d).{8,}$`.  `.` never matches `'\n'` and a
trailing `$` also matches just before one final newline, so the pattern
accepts exactly the inputs whose body (the input with at most one final
newline stripped) is newline-free, at least 8 characters long, and
contains a lowercase letter, an uppercase letter and a digit. -/
def password_valid (pw : String) : Bool :=
  let core := stripTrailingNewline pw.data
  !core.contains '\n' && decide (8 ≤ core.length) &&
    core.any Char.isLower && core.any Char.isUpper && core.any Char.isDigit

/-- The password check applied on the registration path
(`page_auth`: `if not password_valid(newpw)` before `register_user`). -/
def register_password_accepted (pw : String) : Bool := password_valid pw

/-- The password check applied on the password-change path
(`page_profile`: `elif not password_valid(newpw)` before the
`UPDATE users SET password=?`). -/
def change_password_accepted (pw : String) : Bool := password_valid pw

/-- `Home.py` `register_user`: `INSERT INTO users (username, password, email)
VALUES (?, ?, ?)`; the PRIMARY KEY on `username` raises `IntegrityError`
when the username already exists, answered with
`(False, "Username already exists")`; otherwise the submitted values are
inserted as given and `(True, "Registered")` is returned.  Note the
`password` column receives the submitted password string itself. -/
def register_user (users : List UserRow) (username password : String)
    (email : Option String) : List UserRow × (Bool × String) :=
  if users.any (fun r => r.username == username) then
    (users, (false, "Username already exists"))
  else
    (users ++ [⟨username, password, email⟩], (true, "Registered"))

/-- `Home.py` `authenticate`: `SELECT * FROM users WHERE username=? AND
password=?` followed by `c.fetchone() is not None`. -/
def authenticate (users : List UserRow) (username password : String) : Bool :=
  users.any (fun r => r.username == username && r.password == password)

/-- `Home.py` `add_expense`: unconditional `INSERT INTO expenses
(username, category, amount, date, description) VALUES (?, ?, ?, ?, ?)`;
the `id` column is sqlite AUTOINCREMENT, tracked here as `nextId`. -/
def add_expense (expenses : List ExpenseRow) (nextId : Nat)
    (username category : String) (amount : ℚ) (date description : String) :
    List ExpenseRow × Nat :=
  (expenses ++ [⟨nextId, username, category, amount, date, description⟩], nextId + 1)

/-- Row order used by `ORDER BY date ASC` in `get_expenses_df`:
byte-wise text order on the `date` column. -/
def dateTextLe (a b : ExpenseRow) : Prop := lexLe a.date.data b.date.data = true

instance : DecidableRel dateTextLe := fun _ _ => inferInstanceAs (Decidable (_ = true))

/-- `Home.py` `get_expenses_df`: `SELECT ... FROM expenses WHERE username=?
ORDER BY date ASC`, then `pd.to_datetime(df["Date"], errors="coerce")` and
`df.dropna(subset=["Date"])`, which drops every row whose date text does
not parse. -/
def get_expenses_df (expenses : List ExpenseRow) (username : String) :
    List ExpenseRow :=
  (List.insertionSort dateTextLe (expenses.filter (fun e => e.username == username))).filter
    (fun e => (parseDate e.date).isSome)

/-- Whether a budget row has exactly the key `(username, category, month, year)`,
as in the `WHERE` clauses of `set_budget` and `get_budgets` in `Home.py`. -/
def budgetKeyMatches (b : BudgetRow) (username category : String)
    (month year : Int) : Bool :=
  b.username == username && b.category == category &&
    b.month == month && b.year == year

/-- `Home.py` `set_budget`: `DELETE FROM budgets WHERE username=? AND
category=? AND month=? AND year=?` followed by `INSERT INTO budgets ...`.
The state is the table paired with the AUTOINCREMENT counter. -/
def set_budget (s : List BudgetRow × Nat) (username category : String)
    (month year : Int) (amount : ℚ) : List BudgetRow × Nat :=
  (s.1.filter (fun b => !budgetKeyMatches b username category month year) ++
      [⟨s.2, username, category, month, year, amount⟩],
    s.2 + 1)

/-- The arguments of one `set_budget` call. -/
structure BudgetCall where
  username : String
  category : String
  month : Int
  year : Int
  amount : ℚ

/-- A sequence of `set_budget` calls run against the initially empty
`budgets` table (sqlite AUTOINCREMENT starts at 1). -/
def run_set_budgets (calls : List BudgetCall) : List BudgetRow × Nat :=
  calls.foldl
    (fun s c => set_budget s c.username c.category c.month c.year c.amount)
    ([], 1)

/-- At most one budget row per `(username, category, month, year)` key. -/
def uniqueBudgetKeys (bs : List BudgetRow) : Prop :=
  ∀ username category month year,
    (bs.filter (fun b => budgetKeyMatches b username category month year)).length ≤ 1

/-- The budget-progress bar value computed in `page_budgets`:
`pct = min((row["Spent"] / row["Budget"]) if row["Budget"] > 0 else 0, 1)`. -/
def budget_progress_pct (budget spent : ℚ) : ℚ :=
  min (if 0 < budget then spent / budget else 0) 1

/-- The per-category sum `groupby("Category")["Amount"].sum()` of
`page_welcome`, over `(category, amount)` pairs of the expense rows. -/
def catTotal (records : List (String × ℚ)) (cat : String) : ℚ :=
  ((records.filter (fun r => r.1 == cat)).map Prod.snd).sum

/-- The top-category computation of `page_welcome`:
`groupby("Category")["Amount"].sum().idxmax()`.  pandas `groupby` sorts
the distinct keys ascending and `idxmax` returns the first index whose
value attains the maximum, i.e. the lexicographically least category
among those of maximal summed amount. -/
def top_category (records : List (String × ℚ)) : Option String :=
  let cats := List.insertionSort strLe (records.map Prod.fst).dedup
  cats.find? (fun cat => cats.all (fun c2 => decide (catTotal records c2 ≤ catTotal records cat)))

end Home

namespace Auth

/-- A row of the ORM `users` table of `utils/database.py`
(`id`, `username` unique, `password_hash`). -/
structure UserRow where
  id : Nat
  username : String
  password_hash : String
deriving DecidableEq

/-- A row of the ORM `expenses` table of `utils/database.py`
(`id`, `user_id` foreign key, `category`, `amount`, `date`, `description`). -/
structure ExpenseRow where
  id : Nat
  user_id : Nat
  category : String
  amount : ℚ
  date : String
  description : String
deriving DecidableEq

/-- The set of punctuation characters required by the
`utils/authentication.py` password regex, the class
`[@#$%&*!&^()_\-+={}[\]:;\"\'<>,.?/\\|]`. -/
def specialChars : List Char :=
  ['@', '#', '$', '%', '&', '*', '!', '^', '(', ')', '_', '-', '+', '=',
    '\x7b', '\x7d', '[', ']', ':', ';', '\"', '\'', '<', '>', ',', '.', '?', '/', '\\', '|']

/-- `utils/authentication.py` `password_valid`: `re.match` of
`^(?=.*[a-z])(?=.*[A-Z])(?=.*\d)(?=.*[...special...]).{8,}$` — the
`Home.password_valid` policy plus one required punctuation character. -/
def password_valid (pw : String) : Bool :=
  let core := stripTrailingNewline pw.data
  !core.contains '\n' && decide (8 ≤ core.length) &&
    core.any Char.isLower && core.any Char.isUpper && core.any Char.isDigit &&
    core.any (fun c => specialChars.contains c)

/-- The password check applied on the ORM registration path
(`register_user`: `if not password_valid(password)`). -/
def register_password_accepted (pw : String) : Bool := password_valid pw

/-- The password check applied on the ORM password-change path
(`reset_password`: `if not password_valid(new_password)`). -/
def change_password_accepted (pw : String) : Bool := password_valid pw

/-- `utils/authentication.py` `authenticate`: looks the username up with
`db.query(User).filter(User.username == username).first()`; answers
`(False, "User not found.")` when absent, otherwise runs
`bcrypt.checkpw` (an external library call, passed in here as `checkpw`)
and answers `(True, "Authenticated")` or `(False, "Invalid credentials.")`. -/
def authenticate (checkpw : String → String → Bool) (users : List UserRow)
    (username password : String) : Bool × String :=
  match users.find? (fun u => u.username == username) with
  | none => (false, "User not found.")
  | some u =>
    if checkpw password u.password_hash then (true, "Authenticated")
    else (false, "Invalid credentials.")

/-- `utils/authentication.py` `delete_expense_by_id`: looks the row up by
`Expense.id == expense_id` only — no owner parameter, no ownership
check — deletes it when found and returns `True`, else `False`. -/
def delete_expense_by_id (expenses : List ExpenseRow) (expense_id : Nat) :
    List ExpenseRow × Bool :=
  match expenses.find? (fun e => e.id == expense_id) with
  | none => (expenses, false)
  | some _ => (expenses.eraseP (fun e => e.id == expense_id), true)

end Auth

/-- Modelled from the spec (§4.1): the password policy stated in words —
"minimum 8 characters, at least one uppercase letter, one lowercase
letter, one digit" — as a predicate on the submitted string, for
comparison with the implemented `Home.password_valid`. -/
def specPasswordPolicy (pw : String) : Prop :=
  8 ≤ pw.length ∧ (∃ c ∈ pw.data, c.isUpper = true) ∧
    (∃ c ∈ pw.data, c.isLower = true) ∧ (∃ c ∈ pw.data, c.isDigit = true)

instance : DecidablePred specPasswordPolicy := fun _ =>
  inferInstanceAs (Decidable (_ ∧ _))

/-- Claim C1: `Home.py` `register_user` persists the submitted password
string itself in the `password` column of the stored user row — the row
written for `("alice", "Passw0rd!")` carries `password = "Passw0rd!"` in
the clear, contradicting the requirement that only a salted one-way hash
is persisted and that no stored field equals the plaintext. -/
theorem c1_register_persists_plaintext :
    (Home.register_user [] "alice" "Passw0rd!" none).1 =
      [⟨"alice", "Passw0rd!", none⟩] ∧
    ∃ r ∈ (Home.register_user [] "alice" "Passw0rd!" none).1,
      r.password = "Passw0rd!" := by
  refine ⟨rfl, ⟨"alice", "Passw0rd!", none⟩, ?_, rfl⟩
  simp [Home.register_user]

/-- Claim C2: after a successful `register_user users u p email`,
`authenticate` accepts `(u, p)`, rejects `(u, p')` for every `p' ≠ p`,
and rejects every username `q` absent from the store. -/
theorem c2_authenticate_correct (users : List Home.UserRow)
    (u p p' q pw : String) (email : Option String)
    (hreg : (Home.register_user users u p email).2.1 = true)
    (hp : p' ≠ p)
    (hq : ∀ r ∈ users, r.username ≠ q) (hqu : q ≠ u) :
    Home.authenticate (Home.register_user users u p email).1 u p = true ∧
    Home.authenticate (Home.register_user users u p email).1 u p' = false ∧
    Home.authenticate (Home.register_user users u p email).1 q pw = false := by
  by_cases hdup : users.any (fun r => r.username == u)
  · simp [Home.register_user, hdup] at hreg
  · have hnou : ∀ r ∈ users, r.username ≠ u := by
      intro r hr
      have := (List.any_eq_true).not.mp hdup
      push_neg at this
      simpa using this r hr
    simp only [Home.register_user, hdup, if_neg, Bool.false_eq_true,
      not_false_eq_true, if_false]
    refine ⟨?_, ?_, ?_⟩
    · simp [Home.authenticate]
    · simp only [Home.authenticate, List.any_append, List.any_cons,
        List.any_nil, Bool.or_eq_false_iff]
      constructor
      · rw [List.any_eq_false]
        intro r hr
        simp [hnou r hr]
      · simp [Ne.symm hp]
    · simp only [Home.authenticate, List.any_append, List.any_cons,
        List.any_nil, Bool.or_eq_false_iff]
      constructor
      · rw [List.any_eq_false]
        intro r hr
        simp [hq r hr]
      · simp [Ne.symm hqu]

/-- Witness for C2 at a concrete store. -/
theorem c2_authenticate_correct_witness :
    Home.authenticate (Home.register_user [] "alice" "Secret1A" none).1
        "alice" "Secret1A" = true ∧
    Home.authenticate (Home.register_user [] "alice" "Secret1A" none).1
        "alice" "wrong" = false ∧
    Home.authenticate (Home.register_user [] "alice" "Secret1A" none).1
        "bob" "Secret1A" = false :=
  c2_authenticate_correct [] "alice" "Secret1A" "wrong" "bob" "Secret1A" none
    (by decide) (by decide) (by intro r hr; cases hr) (by decide)

/-- Claim C6: `Home.py` `add_expense` performs no validation — called with
the negative amount `-5` it still writes the expense row (the claim says a
negative amount is rejected with no row written). -/
theorem c6_negative_amount_row_written :
    (Home.add_expense [] 1 "alice" "Food" (-5) "2024-01-01" "").1 =
      [⟨1, "alice", "Food", -5, "2024-01-01", ""⟩] := rfl

/-- Rows kept by `DELETE`'s complement filter never match the deleted key. -/
theorem filter_not_key_filter_key (bs : List Home.BudgetRow)
    (u cat : String) (m y : Int) :
    (bs.filter (fun b => !Home.budgetKeyMatches b u cat m y)).filter
      (fun b => Home.budgetKeyMatches b u cat m y) = [] := by
  rw [List.filter_filter]
  simp

/-- One `set_budget` call preserves the per-key uniqueness invariant. -/
theorem set_budget_preserves_unique (s : List Home.BudgetRow × Nat)
    (hs : Home.uniqueBudgetKeys s.1) (u cat : String) (m y : Int) (a : ℚ) :
    Home.uniqueBudgetKeys (Home.set_budget s u cat m y a).1 := by
  intro u' cat' m' y'
  simp only [Home.set_budget, List.filter_append, List.length_append]
  by_cases hm : Home.budgetKeyMatches ⟨s.2, u, cat, m, y, a⟩ u' cat' m' y' = true
  · have hkey : u = u' ∧ cat = cat' ∧ m = m' ∧ y = y' := by
      simpa [Home.budgetKeyMatches, and_assoc] using hm
    obtain ⟨rfl, rfl, rfl, rfl⟩ := hkey
    rw [filter_not_key_filter_key]
    simp [hm]
  · rw [show (List.filter (fun b => Home.budgetKeyMatches b u' cat' m' y')
        [(⟨s.2, u, cat, m, y, a⟩ : Home.BudgetRow)]) = [] by simp [hm]]
    simp only [List.length_nil, Nat.add_zero]
    have hsub : ((s.1.filter (fun b => !Home.budgetKeyMatches b u cat m y)).filter
        (fun b => Home.budgetKeyMatches b u' cat' m' y')).Sublist
        (s.1.filter (fun b => Home.budgetKeyMatches b u' cat' m' y')) := by
      rw [List.filter_filter]
      exact List.monotone_filter_right _ (fun b hb => by
        rw [Bool.and_eq_true] at hb; exact hb.1)
    exact le_trans hsub.length_le (hs u' cat' m' y')

/-- Every state reached from a uniqueness-satisfying state by a sequence
of `set_budget` calls still satisfies the invariant. -/
theorem foldl_set_budget_unique (calls : List Home.BudgetCall) :
    ∀ s : List Home.BudgetRow × Nat, Home.uniqueBudgetKeys s.1 →
      Home.uniqueBudgetKeys
        ((calls.foldl
          (fun s c => Home.set_budget s c.username c.category c.month c.year c.amount)
          s).1) := by
  induction calls with
  | nil => intro s hs; exact hs
  | cons c rest ih =>
    intro s hs
    exact ih _ (set_budget_preserves_unique s hs c.username c.category c.month c.year c.amount)

/-- Claim C4: after any sequence of `set_budget` calls at most one budget
row exists per `(username, category, month, year)` key, and two calls for
the same key leave exactly the one row written by the second call, with
the second amount. -/
theorem c4_budget_key_unique :
    (∀ calls : List Home.BudgetCall,
      Home.uniqueBudgetKeys (Home.run_set_budgets calls).1) ∧
    (∀ (s : List Home.BudgetRow × Nat) (u cat : String) (m y : Int) (a₁ a₂ : ℚ),
      a₁ ≠ a₂ →
      (Home.set_budget (Home.set_budget s u cat m y a₁) u cat m y a₂).1.filter
          (fun b => Home.budgetKeyMatches b u cat m y) =
        [⟨(Home.set_budget s u cat m y a₁).2, u, cat, m, y, a₂⟩]) := by
  constructor
  · intro calls
    apply foldl_set_budget_unique
    intro u cat m y
    simp
  · intro s u cat m y a₁ a₂ _
    have : (Home.set_budget (Home.set_budget s u cat m y a₁) u cat m y a₂).1 =
        ((Home.set_budget s u cat m y a₁).1.filter
          (fun b => !Home.budgetKeyMatches b u cat m y)) ++
          [⟨(Home.set_budget s u cat m y a₁).2, u, cat, m, y, a₂⟩] := rfl
    rw [this, List.filter_append, filter_not_key_filter_key]
    simp [Home.budgetKeyMatches]

/-- Witness for C4: setting the Food budget for May 2024 to 150 and then
to 200 leaves exactly one matching row, carrying 200. -/
theorem c4_budget_key_unique_witness :
    (Home.set_budget (Home.set_budget ([], 1) "alice" "Food" 5 2024 150)
        "alice" "Food" 5 2024 200).1.filter
        (fun b => Home.budgetKeyMatches b "alice" "Food" 5 2024) =
      [⟨(Home.set_budget ([], 1) "alice" "Food" 5 2024 150).2,
        "alice", "Food", 5, 2024, 200⟩] :=
  c4_budget_key_unique.2 ([], 1) "alice" "Food" 5 2024 150 200 (by norm_num)

/-- Claim C3: `utils/authentication.py` `delete_expense_by_id` takes no
caller identity and checks no ownership: invoked by user "bob" (user_id 2)
on expense id 1 owned by "alice" (user_id 1), it deletes alice's row and
reports success, instead of reporting not-found and leaving every row
unchanged. -/
theorem c3_delete_ignores_ownership :
    Auth.delete_expense_by_id [⟨1, 1, "Food", 50, "2024-01-01", "lunch"⟩] 1 =
      ([], true) := by
  decide

/-- Claim C5: the budget-progress value of `page_budgets` always lies in
`[0, 1]`; for a positive budget it is `spent/budget` clamped to `[0, 1]`,
and for a zero budget it is `0` (no division is performed, so no NaN or
infinity can arise in the embedding's exact arithmetic). -/
theorem c5_progress_clamped (budget spent : ℚ) (hs : 0 ≤ spent) :
    0 ≤ Home.budget_progress_pct budget spent ∧
    Home.budget_progress_pct budget spent ≤ 1 ∧
    (0 < budget →
      Home.budget_progress_pct budget spent = max 0 (min (spent / budget) 1)) ∧
    (budget = 0 → Home.budget_progress_pct budget spent = 0) := by
  unfold Home.budget_progress_pct
  by_cases hb : 0 < budget
  · rw [if_pos hb]
    have hd : 0 ≤ spent / budget := div_nonneg hs (le_of_lt hb)
    refine ⟨le_min hd one_pos.le, min_le_right _ _, fun _ => ?_, fun h0 => ?_⟩
    · rw [max_eq_right (le_min hd one_pos.le)]
    · exact absurd h0 (ne_of_gt hb)
  · refine ⟨?_, ?_, fun h => absurd h hb, fun _ => ?_⟩ <;> simp [hb]

/-- Witness for C5 at the spec's own test point: budget 0, spent 50. -/
theorem c5_progress_clamped_witness : Home.budget_progress_pct 0 50 = 0 :=
  (c5_progress_clamped 0 50 (by norm_num)).2.2.2 rfl

/-- Counterexample to claim C9: `utils/authentication.py` `authenticate`
answers `(False, "User not found.")` for an unknown username but
`(False, "Invalid credentials.")` for a known username with a wrong
password — the two runs are distinguishable from the returned error text
(shown with a store holding only user "alice" and any password checker
that rejects the attempt). -/
theorem c9_distinct_error_text :
    Auth.authenticate (fun p h => p == h) [⟨1, "alice", "stored-hash"⟩]
        "bob" "guess" = (false, "User not found.") ∧
    Auth.authenticate (fun p h => p == h) [⟨1, "alice", "stored-hash"⟩]
        "alice" "guess" = (false, "Invalid credentials.") ∧
    Auth.authenticate (fun p h => p == h) [⟨1, "alice", "stored-hash"⟩]
        "bob" "guess" ≠
      Auth.authenticate (fun p h => p == h) [⟨1, "alice", "stored-hash"⟩]
        "alice" "guess" := by
  refine ⟨rfl, ?_, ?_⟩ <;> decide

/-- Claim C9 as amended: the constant-shape property holds for the boolean
`Home.py` `authenticate` — for an unknown username the result is `false`,
the same value returned for a known username with a wrong password, so the
two runs cannot be told apart from its return value; the ORM-variant
`authenticate` instead leaks existence through its message text. -/
theorem c9_home_authenticate_constant_shape (users : List Home.UserRow)
    (u w p q : String)
    (hu : ∀ r ∈ users, r.username ≠ u)
    (hw : ∀ r ∈ users, r.username = w → r.password ≠ q) :
    Home.authenticate users u p = false ∧
    Home.authenticate users w q = false ∧
    Home.authenticate users u p = Home.authenticate users w q := by
  have h1 : Home.authenticate users u p = false := by
    rw [Home.authenticate, List.any_eq_false]
    intro r hr
    simp [hu r hr]
  have h2 : Home.authenticate users w q = false := by
    rw [Home.authenticate, List.any_eq_false]
    intro r hr
    by_cases hrw : r.username = w
    · simp [hw r hr hrw]
    · simp [hrw]
  exact ⟨h1, h2, h1.trans h2.symm⟩

/-- Witness for the amended C9 at a concrete store. -/
theorem c9_home_authenticate_constant_shape_witness :
    Home.authenticate [⟨"alice", "Secret1A", none⟩] "bob" "Secret1A" = false ∧
    Home.authenticate [⟨"alice", "Secret1A", none⟩] "alice" "wrong" = false ∧
    Home.authenticate [⟨"alice", "Secret1A", none⟩] "bob" "Secret1A" =
      Home.authenticate [⟨"alice", "Secret1A", none⟩] "alice" "wrong" :=
  c9_home_authenticate_constant_shape [⟨"alice", "Secret1A", none⟩]
    "bob" "alice" "Secret1A" "wrong"
    (by intro r hr; simp at hr; subst hr; decide)
    (by intro r hr hrw; simp at hr; subst hr; decide)

/-- Claim C8: the registration path (`page_auth`) and the password-change
path (`page_profile`) of `Home.py` invoke the identical `password_valid`
check, so a password is accepted at registration iff it is accepted at
password change; likewise the ORM variant's `register_user` and
`reset_password` both invoke its own `password_valid`.  On every
newline-free input (text inputs are single-line) the applied `Home.py`
policy is exactly the spec's stated policy: at least 8 characters, one
uppercase letter, one lowercase letter and one digit. -/
theorem c8_password_policy_consistent :
    (∀ pw : String,
      Home.register_password_accepted pw = Home.change_password_accepted pw) ∧
    (∀ pw : String,
      Auth.register_password_accepted pw = Auth.change_password_accepted pw) ∧
    (∀ pw : String, '\n' ∉ pw.data →
      (Home.password_valid pw = true ↔ specPasswordPolicy pw)) := by
  refine ⟨fun _ => rfl, fun _ => rfl, fun pw hnl => ?_⟩
  have hcore : stripTrailingNewline pw.data = pw.data := by
    unfold stripTrailingNewline
    rw [if_neg]
    intro h
    exact hnl (List.mem_of_mem_getLast? h)
  have hcontains : pw.data.contains '\n' = false := by
    rw [Bool.eq_false_iff]
    intro hc
    exact hnl (List.elem_iff.mp hc)
  simp only [Home.password_valid, hcore, hcontains, Bool.not_false, Bool.true_and,
    Bool.and_eq_true, List.any_eq_true, decide_eq_true_eq]
  unfold specPasswordPolicy
  rw [show pw.length = pw.data.length from rfl]
  tauto

/-- Witness for C8 at a concrete password. -/
theorem c8_password_policy_consistent_witness :
    Home.register_password_accepted "Passw0rd" =
      Home.change_password_accepted "Passw0rd" ∧
    Auth.register_password_accepted "Passw0rd" =
      Auth.change_password_accepted "Passw0rd" ∧
    (Home.password_valid "Passw0rd" = true ↔ specPasswordPolicy "Passw0rd") :=
  ⟨c8_password_policy_consistent.1 "Passw0rd",
    c8_password_policy_consistent.2.1 "Passw0rd",
    c8_password_policy_consistent.2.2 "Passw0rd" (by decide)⟩

/-- `lexLe` is reflexive. -/
theorem lexLe_refl : ∀ cs : List Char, lexLe cs cs = true
  | [] => rfl
  | c :: cs => by simp [lexLe, lexLe_refl cs]

/-- `lexLe` is total. -/
theorem lexLe_total : ∀ as bs : List Char, lexLe as bs = true ∨ lexLe bs as = true
  | [], _ => Or.inl rfl
  | _ :: _, [] => Or.inr rfl
  | a :: as, b :: bs => by
    rcases Nat.lt_trichotomy a.toNat b.toNat with h | h | h
    · left; simp [lexLe, h]
    · have h1 : ¬a.toNat < b.toNat := by omega
      have h2 : ¬b.toNat < a.toNat := by omega
      rcases lexLe_total as bs with ih | ih
      · left; simp [lexLe, h1, h2, ih]
      · right; simp [lexLe, h1, h2, ih]
    · right; simp [lexLe, h]

/-- `lexLe` is transitive. -/
theorem lexLe_trans : ∀ as bs cs : List Char,
    lexLe as bs = true → lexLe bs cs = true → lexLe as cs = true
  | [], _, _, _, _ => rfl
  | _ :: _, [], _, h1, _ => by simp [lexLe] at h1
  | _ :: _, _ :: _, [], _, h2 => by simp [lexLe] at h2
  | a :: as, b :: bs, c :: cs, h1, h2 => by
    simp only [lexLe] at h1 h2 ⊢
    by_cases hba : b.toNat < a.toNat
    · rw [if_neg (by omega), if_pos hba] at h1
      exact absurd h1 (by simp)
    · by_cases hcb : c.toNat < b.toNat
      · rw [if_neg (by omega), if_pos hcb] at h2
        exact absurd h2 (by simp)
      · by_cases hac : a.toNat < c.toNat
        · rw [if_pos hac]
        · have h1' : lexLe as bs = true := by
            rwa [if_neg (by omega), if_neg hba] at h1
          have h2' : lexLe bs cs = true := by
            rwa [if_neg (by omega), if_neg hcb] at h2
          rw [if_neg hac, if_neg (by omega)]
          exact lexLe_trans as bs cs h1' h2'

/-- `find?` on a `Pairwise r` list: the found element is equal to or
`r`-below every element of the list satisfying the predicate. -/
theorem find?_pairwise {α : Type} {r : α → α → Prop} {p : α → Bool} :
    ∀ {l : List α}, l.Pairwise r → ∀ {c : α}, l.find? p = some c →
      ∀ c' ∈ l, p c' = true → c = c' ∨ r c c' := by
  intro l
  induction l with
  | nil => intro _ c h; cases h
  | cons a t ih =>
    intro hpw c hfind c' hc' hp
    rw [List.pairwise_cons] at hpw
    by_cases hpa : p a = true
    · rw [List.find?_cons_of_pos _ hpa] at hfind
      have hac := Option.some.inj hfind
      subst hac
      rcases List.mem_cons.mp hc' with rfl | hmem
      · exact Or.inl rfl
      · exact Or.inr (hpw.1 c' hmem)
    · rw [List.find?_cons_of_neg _ hpa] at hfind
      rcases List.mem_cons.mp hc' with rfl | hmem
      · exact absurd hp hpa
      · exact ih hpw.2 hfind c' hmem hp

/-- Claim C10: `top_category` (the `groupby("Category")["Amount"].sum().idxmax()`
of `page_welcome`) is a pure function of the record set — identical on
every run — and whenever it returns a category, that category's summed
amount is maximal and the category is lexicographically least among all
categories attaining the maximum (pandas sorts group keys ascending and
`idxmax` takes the first maximum). -/
theorem c10_top_category_lex_least_tie_break (records : List (String × ℚ))
    (c : String) (h : Home.top_category records = some c) :
    c ∈ records.map Prod.fst ∧
    (∀ c' ∈ records.map Prod.fst,
      Home.catTotal records c' ≤ Home.catTotal records c) ∧
    (∀ c' ∈ records.map Prod.fst,
      Home.catTotal records c' = Home.catTotal records c → strLe c c') := by
  simp only [Home.top_category] at h
  have hperm := List.perm_insertionSort strLe (records.map Prod.fst).dedup
  have hmem : ∀ x : String,
      x ∈ List.insertionSort strLe (records.map Prod.fst).dedup ↔
        x ∈ records.map Prod.fst :=
    fun x => (hperm.mem_iff).trans List.mem_dedup
  haveI : IsTotal String strLe := ⟨fun a b => lexLe_total a.data b.data⟩
  haveI : IsTrans String strLe :=
    ⟨fun a b c hab hbc => lexLe_trans a.data b.data c.data hab hbc⟩
  have hsorted : List.Pairwise strLe
      (List.insertionSort strLe (records.map Prod.fst).dedup) :=
    List.sorted_insertionSort strLe _
  have hc_mem := List.mem_of_find?_eq_some h
  have hc_pred := List.find?_some h
  simp only [List.all_eq_true, decide_eq_true_eq] at hc_pred
  refine ⟨(hmem c).mp hc_mem, fun c' hc' => ?_, fun c' hc' heq => ?_⟩
  · exact hc_pred c' ((hmem c').mpr hc')
  · have hc'in : c' ∈ List.insertionSort strLe (records.map Prod.fst).dedup :=
      (hmem c').mpr hc'
    have hc'pred : (fun cat =>
        (List.insertionSort strLe (records.map Prod.fst).dedup).all
          (fun c2 => decide (Home.catTotal records c2 ≤ Home.catTotal records cat)))
        c' = true := by
      simp only [List.all_eq_true, decide_eq_true_eq]
      intro c2 hc2
      exact le_trans (hc_pred c2 hc2) (le_of_eq heq.symm)
    rcases find?_pairwise hsorted h c' hc'in hc'pred with rfl | hlt
    · exact lexLe_refl c.data
    · exact hlt

/-- Witness for C10 at the spec's tie example: Food and Transport both
sum to 120 and `top_category` resolves to "Food". -/
theorem c10_top_category_lex_least_tie_break_witness :
    Home.top_category [("Transport", 120), ("Food", 120)] = some "Food" ∧
    Home.catTotal [("Transport", 120), ("Food", 120)] "Transport" ≤
      Home.catTotal [("Transport", 120), ("Food", 120)] "Food" ∧
    strLe "Food" "Transport" := by
  have h : Home.top_category [("Transport", 120), ("Food", 120)] = some "Food" := by
    simp [Home.top_category, Home.catTotal, List.insertionSort, List.orderedInsert,
      strLe, lexLe, List.find?, List.all]
  refine ⟨h, ?_, ?_⟩
  · exact (c10_top_category_lex_least_tie_break _ "Food" h).2.1 "Transport" (by decide)
  · exact (c10_top_category_lex_least_tie_break _ "Food" h).2.2 "Transport" (by decide)
      (by simp [Home.catTotal])

/-- Characters with equal code points are equal. -/
theorem char_toNat_inj (a b : Char) (h : a.toNat = b.toNat) : a = b := by
  apply Char.ext
  exact UInt32.ext h

/-- Unfolding equation of `lexLe` on two nonempty lists. -/
theorem lexLe_cons (c d : Char) (cs ds : List Char) :
    lexLe (c :: cs) (d :: ds) =
      if c.toNat < d.toNat then true
      else if d.toNat < c.toNat then false else lexLe cs ds := rfl

/-- A digit character's code point lies between 48 and 57. -/
theorem isDigitChar_bounds (c : Char) (h : isDigitChar c = true) :
    48 ≤ c.toNat ∧ c.toNat ≤ 57 := by
  simpa [isDigitChar, Bool.and_eq_true, decide_eq_true_eq] using h

/-- The decimal value of a digit block is below `10 ^ length`. -/
theorem natOfDigits_lt_pow (xs : List Char)
    (h : ∀ c ∈ xs, isDigitChar c = true) : natOfDigits xs < 10 ^ xs.length := by
  induction xs with
  | nil => simp [natOfDigits]
  | cons c cs ih =>
    have hb := isDigitChar_bounds c (h c (List.mem_cons_self c cs))
    have ht := ih (fun x hx => h x (List.mem_cons_of_mem c hx))
    have hv : digitVal c ≤ 9 := by simp only [digitVal]; omega
    simp only [natOfDigits, List.length_cons, pow_succ]
    calc digitVal c * 10 ^ cs.length + natOfDigits cs
        < digitVal c * 10 ^ cs.length + 10 ^ cs.length := by omega
      _ = (digitVal c + 1) * 10 ^ cs.length := by ring
      _ ≤ 10 * 10 ^ cs.length := Nat.mul_le_mul_right _ (by omega)
      _ = 10 ^ cs.length * 10 := by ring

/-- Byte-wise lexicographic comparison of two texts that start with
equal-length digit blocks: either the first block has the strictly
smaller decimal value, or the blocks coincide and the comparison
continues on the remainders. -/
theorem lexLe_digit_blocks :
    ∀ (xs ys zs ws : List Char), xs.length = ys.length →
      (∀ c ∈ xs, isDigitChar c = true) → (∀ c ∈ ys, isDigitChar c = true) →
      lexLe (xs ++ zs) (ys ++ ws) = true →
      natOfDigits xs < natOfDigits ys ∨ (xs = ys ∧ lexLe zs ws = true) := by
  intro xs
  induction xs with
  | nil =>
    intro ys zs ws hlen _ _ hlex
    have hys : ys = [] := List.length_eq_zero.mp hlen.symm
    subst hys
    exact Or.inr ⟨rfl, by simpa using hlex⟩
  | cons x xs ih =>
    intro ys zs ws hlen hx hy hlex
    cases ys with
    | nil => simp at hlen
    | cons y ys' =>
      have hlen' : xs.length = ys'.length := by simpa using hlen
      have hbx := isDigitChar_bounds x (hx x (List.mem_cons_self x xs))
      have hby := isDigitChar_bounds y (hy y (List.mem_cons_self y ys'))
      have hxtail : ∀ c ∈ xs, isDigitChar c = true :=
        fun c hc => hx c (List.mem_cons_of_mem x hc)
      have hytail : ∀ c ∈ ys', isDigitChar c = true :=
        fun c hc => hy c (List.mem_cons_of_mem y hc)
      simp only [List.cons_append] at hlex
      rw [lexLe_cons] at hlex
      by_cases hxy : x.toNat < y.toNat
      · left
        have hxs := natOfDigits_lt_pow xs hxtail
        simp only [natOfDigits, hlen']
        have h1 : digitVal x * 10 ^ ys'.length + natOfDigits xs <
            (digitVal x + 1) * 10 ^ ys'.length := by
          rw [add_mul, one_mul]
          rw [hlen'] at hxs
          omega
        have h2 : (digitVal x + 1) * 10 ^ ys'.length ≤ digitVal y * 10 ^ ys'.length :=
          Nat.mul_le_mul_right _ (by simp only [digitVal]; omega)
        omega
      · by_cases hyx : y.toNat < x.toNat
        · rw [if_neg hxy, if_pos hyx] at hlex
          exact absurd hlex (by simp)
        · rw [if_neg hxy, if_neg hyx] at hlex
          have hxyeq : x = y := char_toNat_inj x y (by omega)
          subst hxyeq
          rcases ih ys' zs ws hlen' hxtail hytail hlex with hlt | ⟨heq, hzw⟩
          · left
            simp only [natOfDigits, hlen']
            exact Nat.add_lt_add_left hlt _
          · exact Or.inr ⟨by rw [heq], hzw⟩

/-- Value of a two-digit block. -/
theorem natOfDigits_two (c1 c2 : Char) :
    natOfDigits [c1, c2] = digitVal c1 * 10 + digitVal c2 := by
  simp [natOfDigits]

/-- Value of a four-digit block. -/
theorem natOfDigits_four (c1 c2 c3 c4 : Char) :
    natOfDigits [c1, c2, c3, c4] =
      digitVal c1 * 1000 + digitVal c2 * 100 + digitVal c3 * 10 + digitVal c4 := by
  simp [natOfDigits]
  ring

/-- On texts that parse as `YYYY-MM-DD` dates, byte-wise text order
implies chronological order of the parsed dates (the reason `ORDER BY`
on the ISO date texts sorts chronologically). -/
theorem parseDate_lexLe_mono {s t : String} {p q : Nat × Nat × Nat}
    (hs : parseDate s = some p) (ht : parseDate t = some q)
    (hlex : lexLe s.data t.data = true) : calDateLe p q := by
  unfold parseDate at hs ht
  split at hs
  case h_2 => exact absurd hs (by simp)
  case h_1 y1 y2 y3 y4 m1 m2 d1 d2 heqs =>
  split at hs
  case isFalse => exact absurd hs (by simp)
  case isTrue hdigs =>
  simp only [] at hs
  split at hs
  case isFalse => exact absurd hs (by simp)
  case isTrue hranges =>
  have hp := (Option.some.inj hs).symm
  subst hp
  split at ht
  case h_2 => exact absurd ht (by simp)
  case h_1 y1' y2' y3' y4' m1' m2' d1' d2' heqt =>
  split at ht
  case isFalse => exact absurd ht (by simp)
  case isTrue hdigt =>
  simp only [] at ht
  split at ht
  case isFalse => exact absurd ht (by simp)
  case isTrue hranget =>
  have hq := (Option.some.inj ht).symm
  subst hq
  rw [heqs, heqt] at hlex
  simp only [Bool.and_eq_true] at hdigs hdigt
  obtain ⟨⟨⟨⟨⟨⟨⟨hy1, hy2⟩, hy3⟩, hy4⟩, hm1⟩, hm2⟩, hd1⟩, hd2⟩ := hdigs
  obtain ⟨⟨⟨⟨⟨⟨⟨hy1', hy2'⟩, hy3'⟩, hy4'⟩, hm1'⟩, hm2'⟩, hd1'⟩, hd2'⟩ := hdigt
  have hlexb : lexLe
      ([y1, y2, y3, y4] ++ ('-' :: ([m1, m2] ++ ('-' :: ([d1, d2] ++ ([] : List Char))))))
      ([y1', y2', y3', y4'] ++ ('-' :: ([m1', m2'] ++ ('-' :: ([d1', d2'] ++ ([] : List Char)))))) =
      true := hlex
  have hYdig : ∀ c ∈ [y1, y2, y3, y4], isDigitChar c = true := by
    intro c hc
    simp only [List.mem_cons, List.not_mem_nil, or_false] at hc
    rcases hc with rfl | rfl | rfl | rfl <;> assumption
  have hYdig' : ∀ c ∈ [y1', y2', y3', y4'], isDigitChar c = true := by
    intro c hc
    simp only [List.mem_cons, List.not_mem_nil, or_false] at hc
    rcases hc with rfl | rfl | rfl | rfl <;> assumption
  rcases lexLe_digit_blocks [y1, y2, y3, y4] [y1', y2', y3', y4'] _ _ rfl hYdig hYdig' hlexb
    with hYlt | ⟨hYeq, hrest⟩
  · left
    rw [natOfDigits_four, natOfDigits_four] at hYlt
    exact hYlt
  · have hYeqn : digitVal y1 * 1000 + digitVal y2 * 100 + digitVal y3 * 10 + digitVal y4 =
        digitVal y1' * 1000 + digitVal y2' * 100 + digitVal y3' * 10 + digitVal y4' := by
      have := congrArg natOfDigits hYeq
      rwa [natOfDigits_four, natOfDigits_four] at this
    rw [lexLe_cons, if_neg (lt_irrefl _), if_neg (lt_irrefl _)] at hrest
    have hMdig : ∀ c ∈ [m1, m2], isDigitChar c = true := by
      intro c hc
      simp only [List.mem_cons, List.not_mem_nil, or_false] at hc
      rcases hc with rfl | rfl <;> assumption
    have hMdig' : ∀ c ∈ [m1', m2'], isDigitChar c = true := by
      intro c hc
      simp only [List.mem_cons, List.not_mem_nil, or_false] at hc
      rcases hc with rfl | rfl <;> assumption
    rcases lexLe_digit_blocks [m1, m2] [m1', m2'] _ _ rfl hMdig hMdig' hrest
      with hMlt | ⟨hMeq, hrest2⟩
    · right
      refine ⟨hYeqn, Or.inl ?_⟩
      rw [natOfDigits_two, natOfDigits_two] at hMlt
      exact hMlt
    · have hMeqn : digitVal m1 * 10 + digitVal m2 = digitVal m1' * 10 + digitVal m2' := by
        have := congrArg natOfDigits hMeq
        rwa [natOfDigits_two, natOfDigits_two] at this
      rw [lexLe_cons, if_neg (lt_irrefl _), if_neg (lt_irrefl _)] at hrest2
      have hDdig : ∀ c ∈ [d1, d2], isDigitChar c = true := by
        intro c hc
        simp only [List.mem_cons, List.not_mem_nil, or_false] at hc
        rcases hc with rfl | rfl <;> assumption
      have hDdig' : ∀ c ∈ [d1', d2'], isDigitChar c = true := by
        intro c hc
        simp only [List.mem_cons, List.not_mem_nil, or_false] at hc
        rcases hc with rfl | rfl <;> assumption
      rcases lexLe_digit_blocks [d1, d2] [d1', d2'] _ _ rfl hDdig hDdig' hrest2
        with hDlt | ⟨hDeq, _⟩
      · right
        refine ⟨hYeqn, Or.inr ⟨hMeqn, ?_⟩⟩
        rw [natOfDigits_two, natOfDigits_two] at hDlt
        exact le_of_lt hDlt
      · have hDeqn : digitVal d1 * 10 + digitVal d2 = digitVal d1' * 10 + digitVal d2' := by
          have := congrArg natOfDigits hDeq
          rwa [natOfDigits_two, natOfDigits_two] at this
        exact Or.inr ⟨hYeqn, Or.inr ⟨hMeqn, le_of_eq hDeqn⟩⟩

/-- Claim C7: `get_expenses_df` returns exactly the caller's rows whose
date text parses as a calendar date — rows with unparseable dates are
excluded rather than failing (the function is total) — and the returned
sequence is ascending by parsed date. -/
theorem c7_list_expenses_sorted (expenses : List Home.ExpenseRow)
    (username : String) :
    (∀ e ∈ Home.get_expenses_df expenses username,
      e.username = username ∧ (parseDate e.date).isSome = true) ∧
    (∀ e ∈ expenses, e.username = username → (parseDate e.date).isSome = true →
      e ∈ Home.get_expenses_df expenses username) ∧
    (∀ e ∈ expenses, parseDate e.date = none →
      e ∉ Home.get_expenses_df expenses username) ∧
    List.Pairwise
      (fun a b => ∀ p q, parseDate a.date = some p → parseDate b.date = some q →
        calDateLe p q)
      (Home.get_expenses_df expenses username) := by
  have hperm :
      (List.insertionSort Home.dateTextLe
        (expenses.filter (fun e => e.username == username))).Perm
        (expenses.filter (fun e => e.username == username)) :=
    List.perm_insertionSort _ _
  haveI : IsTotal Home.ExpenseRow Home.dateTextLe :=
    ⟨fun a b => lexLe_total a.date.data b.date.data⟩
  haveI : IsTrans Home.ExpenseRow Home.dateTextLe :=
    ⟨fun a b c hab hbc => lexLe_trans a.date.data b.date.data c.date.data hab hbc⟩
  have hsorted : List.Pairwise Home.dateTextLe
      (List.insertionSort Home.dateTextLe
        (expenses.filter (fun e => e.username == username))) :=
    List.sorted_insertionSort _ _
  refine ⟨?_, ?_, ?_, ?_⟩
  · intro e he
    simp only [Home.get_expenses_df] at he
    obtain ⟨hein, hparse⟩ := List.mem_filter.mp he
    obtain ⟨_, huser⟩ := List.mem_filter.mp (hperm.mem_iff.mp hein)
    exact ⟨by simpa using huser, hparse⟩
  · intro e he huser hparse
    simp only [Home.get_expenses_df]
    exact List.mem_filter.mpr
      ⟨hperm.mem_iff.mpr (List.mem_filter.mpr ⟨he, by simpa using huser⟩), hparse⟩
  · intro e _ hnone hmem
    simp only [Home.get_expenses_df] at hmem
    obtain ⟨_, hparse⟩ := List.mem_filter.mp hmem
    rw [hnone] at hparse
    simp at hparse
  · have hp := hsorted.filter (fun e => (parseDate e.date).isSome)
    refine List.Pairwise.imp ?_ hp
    intro a b hab p q hpa hqb
    exact parseDate_lexLe_mono hpa hqb hab

/-- Witness for C7: with one row of another user, one unparseable-date
row and two parseable rows, the query keeps the caller's dated rows and
drops the unparseable one. -/
theorem c7_list_expenses_sorted_witness :
    (⟨2, "alice", "Transport", 3, "2024-01-05", ""⟩ : Home.ExpenseRow) ∈
      Home.get_expenses_df
        [⟨1, "alice", "Food", 5, "2024-02-10", ""⟩,
          ⟨2, "alice", "Transport", 3, "2024-01-05", ""⟩,
          ⟨3, "alice", "Other", 2, "not-a-date", ""⟩,
          ⟨4, "bob", "Food", 1, "2024-01-01", ""⟩] "alice" ∧
    (⟨3, "alice", "Other", 2, "not-a-date", ""⟩ : Home.ExpenseRow) ∉
      Home.get_expenses_df
        [⟨1, "alice", "Food", 5, "2024-02-10", ""⟩,
          ⟨2, "alice", "Transport", 3, "2024-01-05", ""⟩,
          ⟨3, "alice", "Other", 2, "not-a-date", ""⟩,
          ⟨4, "bob", "Food", 1, "2024-01-01", ""⟩] "alice" :=
  ⟨(c7_list_expenses_sorted
      [⟨1, "alice", "Food", 5, "2024-02-10", ""⟩,
        ⟨2, "alice", "Transport", 3, "2024-01-05", ""⟩,
        ⟨3, "alice", "Other", 2, "not-a-date", ""⟩,
        ⟨4, "bob", "Food", 1, "2024-01-01", ""⟩] "alice").2.1
      ⟨2, "alice", "Transport", 3, "2024-01-05", ""⟩
      (List.Mem.tail _ (List.Mem.head _)) rfl (by decide),
    (c7_list_expenses_sorted
      [⟨1, "alice", "Food", 5, "2024-02-10", ""⟩,
        ⟨2, "alice", "Transport", 3, "2024-01-05", ""⟩,
        ⟨3, "alice", "Other", 2, "not-a-date", ""⟩,
        ⟨4, "bob", "Food", 1, "2024-01-01", ""⟩] "alice").2.2.1
      ⟨3, "alice", "Other", 2, "not-a-date", ""⟩
      (List.Mem.tail _ (List.Mem.tail _ (List.Mem.head _))) (by decide)⟩
